import Mathlib

/-!
Verification of the Go detector/fixer pipeline of the `desloppify` repository.

Shallow embedding of the Python sources under `src/desloppify/lang/go/`:
pure text-processing functions are translated into Lean functions over
`String` / `List Char`; the small regular expressions used by the code are
hand-rolled into equivalent deterministic scanners (the patterns involved
have disjoint follow sets, so greedy maximal-munch matching coincides with
Python's backtracking semantics; this is noted at each matcher).  Python
semantics are modelled for the ASCII fragment exercised by Go source text:
`str.strip`/`str.split()` use the Python whitespace class, `\w` is
`[A-Za-z0-9_]`, `str.isidentifier` is the ASCII identifier rule.  All text
functions operate on `List Char` (structural recursion, kernel-reducible)
with `String` used at the boundaries.
-/

namespace Desloppify


/-! ### Python string primitives -/

/-- Python whitespace class (`str.split()`, `str.strip()`, regex `\s`). -/
def pyIsSpace (c : Char) : Bool :=
  c = ' ' || c = '\t' || c = '\n' || c = '\r' || c = '\x0b' || c = '\x0c'

/-- Python regex `\w` (ASCII fragment): `[A-Za-z0-9_]`. -/
def pyIsWord (c : Char) : Bool :=
  c.isAlphanum || c = '_'

/-- Python `str.strip()` (ASCII whitespace model). -/
def pyStrip (cs : List Char) : List Char :=
  ((cs.dropWhile pyIsSpace).reverse.dropWhile pyIsSpace).reverse

/-- Helper for `pySplitWs`: accumulate the current word (reversed). -/
def pySplitWsAux (acc : List Char) : List Char → List (List Char)
  | [] => if acc.isEmpty then [] else [acc.reverse]
  | c :: cs =>
    if pyIsSpace c then
      if acc.isEmpty then pySplitWsAux [] cs
      else acc.reverse :: pySplitWsAux [] cs
    else pySplitWsAux (c :: acc) cs

/-- Python `str.split()` with no argument: the maximal nonempty runs of
non-whitespace characters. -/
def pySplitWs (cs : List Char) : List (List Char) :=
  pySplitWsAux [] cs

/-- Helper for `splitOnChar`: accumulate the current field (reversed). -/
def splitOnCharAux (sep : Char) (acc : List Char) : List Char → List (List Char)
  | [] => [acc.reverse]
  | c :: cs =>
    if c = sep then acc.reverse :: splitOnCharAux sep [] cs
    else splitOnCharAux sep (c :: acc) cs

/-- Python `str.split(sep)` for a one-character separator: fields between
separator occurrences, empties preserved (`"".split(sep) == [""]`). -/
def splitOnChar (sep : Char) (cs : List Char) : List (List Char) :=
  splitOnCharAux sep [] cs

/-- Python `str.isidentifier()` (ASCII fragment): nonempty, first char a
letter or underscore, remaining chars letters, digits or underscores. -/
def pyIsIdentifier (cs : List Char) : Bool :=
  match cs with
  | [] => false
  | c :: rest => (c.isAlpha || c = '_') && rest.all (fun d => d.isAlphanum || d = '_')

/-- Python `content.count("\n")` over a character list. -/
def countNl (cs : List Char) : Nat :=
  cs.countP (fun c => c = '\n')

/-- Python `str.splitlines()` for LF-separated text (the only separator
occurring in the Go sources modelled here): no trailing empty line for
text ending in a newline, and `[]` for the empty string. -/
def pySplitlines (cs : List Char) : List (List Char) :=
  match cs with
  | [] => []
  | _ =>
    let parts := splitOnChar '\n' cs
    if parts.getLast? = some [] then parts.dropLast else parts

/-! ### `extractors._extract_params_from_sig`
(src/desloppify/lang/go/extractors.py lines 34-60)

The Python loop appends at most one name per comma-separated token, so it
is embedded as a `filterMap` over the comma split with a per-token
function. -/

/-- One iteration of the `_extract_params_from_sig` loop: the name the
token contributes, if any.  Mirrors extractors.py lines 39-59. -/
def paramOfToken (token : List Char) : Option (List Char) :=
  let t := pyStrip token
  if t.isEmpty then none
  else
    match pySplitWs t with
    | [] => none
    | [name] =>
      -- bare single token: a name only if lowercase-initial identifier
      if (name.headD 'A').isLower && pyIsIdentifier name then some name else none
    | name :: _ :: _ =>
      -- "name type" (or "name ...type"): first word is the name
      if pyIsIdentifier name then some name else none

/-- Embeds `_extract_params_from_sig(sig_text)`: split on every comma, collect
the contributed names (extractors.py lines 34-60). -/
def extractParamsFromSig (sigText : List Char) : List (List Char) :=
  (splitOnChar ',' sigText).filterMap paramOfToken

/-- The condition under which a comma-separated signature token contributes
exactly one parameter name (the spec's description of step 2 of the
extraction algorithm): either several whitespace-separated words whose
first word is an identifier ("name type"), or a single lowercase-initial
identifier word. -/
def tokenNamesParam (token : List Char) : Bool :=
  match pySplitWs (pyStrip token) with
  | [] => false
  | [name] => (name.headD 'A').isLower && pyIsIdentifier name
  | name :: _ :: _ => pyIsIdentifier name

/-- Helper for `topLevelSplit`: accumulate the current field (reversed)
while tracking parenthesis depth. -/
def topLevelSplitAux (acc : List Char) (depth : Nat) :
    List Char → List (List Char)
  | [] => [acc.reverse]
  | c :: cs =>
    if c = ',' ∧ depth = 0 then acc.reverse :: topLevelSplitAux [] 0 cs
    else
      topLevelSplitAux (c :: acc)
        (if c = '(' then depth + 1 else if c = ')' then depth - 1 else depth) cs

/-- Modelled from the spec: the split "by top-level commas" of the
extraction algorithm's step 2 — fields separated only at commas lying at
parenthesis depth zero, so a comma nested inside a parameter's type (a
func-typed parameter) does not separate parameters.  This is the
spec-side notion the claim's `N` counts; the code itself splits at every
comma (`extractParamsFromSig`). -/
def topLevelSplit (cs : List Char) : List (List Char) :=
  topLevelSplitAux [] 0 cs

/-! ### `extractors._find_matching_brace`
(src/desloppify/lang/go/extractors.py lines 63-86)

The Python function counts `{`/`}` over every character — it has no
string-literal awareness. -/

/-- Depth update for one character of `_find_matching_brace`. -/
def braceStep (d : Int) (c : Char) : Int :=
  if c = '{' then d + 1 else if c = '}' then d - 1 else d

/-- Result of scanning one line in `_find_matching_brace`: the matching
close brace was found on this line, or the depth after the line. -/
inductive BraceScan where
  | found : BraceScan
  | depth : Int → BraceScan
deriving DecidableEq

/-- Inner character loop of `_find_matching_brace` (extractors.py lines
78-85): update depth per char, stop when a `}` returns the depth to 0. -/
def scanLineForClose : List Char → Int → BraceScan
  | [], d => .depth d
  | c :: rest, d =>
    let d' := braceStep d c
    if c = '}' ∧ d' = 0 then .found else scanLineForClose rest d'

/-- Outer line loop of `_find_matching_brace` for the lines after the
start line. -/
def findMatchingBraceAux : List (List Char) → Nat → Int → Option Nat
  | [], _, _ => none
  | l :: rest, i, d =>
    match scanLineForClose l d with
    | .found => some i
    | .depth d' => findMatchingBraceAux rest (i + 1) d'

/-- Embeds `_find_matching_brace(lines, start_line, start_col)` (extractors.py
lines 63-86): scan from `start_col` of `start_line` counting brace depth
over every character, returning the line index where a `}` brings the
depth to zero. -/
def findMatchingBrace (lines : List (List Char)) (startLine startCol : Nat) :
    Option Nat :=
  match lines.drop startLine with
  | [] => none
  | l :: rest =>
    match scanLineForClose (l.drop startCol) 0 with
    | .found => some startLine
    | .depth d' => findMatchingBraceAux rest (startLine + 1) d'

/-- Spec-side scan: the same depth count expressed over the flattened
stream of (line-number, character) pairs — every character counted, with
no string-literal state. -/
def braceScanSpec : List (Nat × Char) → Int → Option Nat
  | [], _ => none
  | (ln, c) :: rest, d =>
    let d' := braceStep d c
    if c = '}' ∧ d' = 0 then some ln else braceScanSpec rest d'

/-- Tag every character of every line with its line number. -/
def flattenLines : List (List Char) → Nat → List (Nat × Char)
  | [], _ => []
  | l :: rest, i => l.map (fun c => (i, c)) ++ flattenLines rest (i + 1)

/-- The character stream `_find_matching_brace` walks: the start line from
the start column, then all following lines. -/
def flattenFrom (lines : List (List Char)) (s c : Nat) : List (Nat × Char) :=
  match lines.drop s with
  | [] => []
  | l :: rest => (l.drop c).map (fun ch => (s, ch)) ++ flattenLines rest (s + 1)

/-! ### `extractors._extract_functions_regex`
(src/desloppify/lang/go/extractors.py lines 99-167)

The `_FUNC_RE` regex `^func\s+(?:\(([^)]+)\)\s+)?(\w+)\s*\(` (MULTILINE)
is hand-rolled below.  Its alternatives have disjoint follow sets
(`\s` vs `(` vs `\w`), so greedy maximal-munch scanning is equivalent to
Python's backtracking: when the optional receiver group is attempted
(next char is `(`) and fails, the skipped-group alternative would have to
match `\w+` against that same `(` and fails too. -/

/-- A match of `_FUNC_RE`: total matched length (the match ends just after
the opening parenthesis of the parameter list) and the function name. -/
structure FuncREMatch where
  consumed : Nat
  name : List Char
deriving DecidableEq

/-- Match `(\w+)\s*\(` and return the name plus consumed length offset. -/
def funcNameAndParen (cs : List Char) (off : Nat) : Option FuncREMatch :=
  let w := cs.takeWhile pyIsWord
  if w.isEmpty then none
  else
    let ws := (cs.drop w.length).takeWhile pyIsSpace
    match cs.drop (w.length + ws.length) with
    | '(' :: _ => some ⟨off + w.length + ws.length + 1, w⟩
    | _ => none

/-- Attempt `_FUNC_RE` at the given position (which the caller guarantees
is a line start). -/
def tryFuncMatch (cs : List Char) : Option FuncREMatch :=
  match cs with
  | 'f' :: 'u' :: 'n' :: 'c' :: rest =>
    let ws := rest.takeWhile pyIsSpace
    if ws.isEmpty then none
    else
      match rest.drop ws.length with
      | '(' :: r2 =>
        -- optional receiver group `\(([^)]+)\)\s+`
        let rcv := r2.takeWhile (fun c => !(c = ')'))
        if rcv.isEmpty then none
        else
          match r2.drop rcv.length with
          | ')' :: r3 =>
            let ws2 := r3.takeWhile pyIsSpace
            if ws2.isEmpty then none
            else funcNameAndParen (r3.drop ws2.length)
              (4 + ws.length + 1 + rcv.length + 1 + ws2.length)
          | _ => none
      | afterWs => funcNameAndParen afterWs (4 + ws.length)
  | _ => none

/-- Embeds `finditer` of `_FUNC_RE`: try the anchored match at every line start,
continuing after the end of each match (non-overlapping).  `fuel` is the
initial text length, consumed at least one character per step. -/
def funcFinditerAux : Nat → List Char → Nat → Bool → List (Nat × FuncREMatch)
  | 0, _, _, _ => []
  | _, [], _, _ => []
  | fuel + 1, c :: rest, pos, atLS =>
    if atLS then
      match tryFuncMatch (c :: rest) with
      | some m =>
        -- the char just before the new position is `(`, not a line start
        (pos, m) :: funcFinditerAux fuel ((c :: rest).drop m.consumed)
          (pos + m.consumed) false
      | none => funcFinditerAux fuel rest (pos + 1) (c = '\n')
    else funcFinditerAux fuel rest (pos + 1) (c = '\n')

/-- All `_FUNC_RE` matches of the content, with their start offsets. -/
def funcFinditer (cs : List Char) : List (Nat × FuncREMatch) :=
  funcFinditerAux cs.length cs 0 true

/-- Parameter-list scan of extractors.py lines 118-125: from just after
the opening parenthesis, track parenthesis depth; `n` is the running
Python index `i`, returned when depth reaches 0 (`None` when the text is
exhausted with unbalanced parentheses, the `depth != 0` skip). -/
def scanParen : List Char → Nat → Nat → Option Nat
  | _, 0, n => some n
  | [], _ + 1, _ => none
  | c :: rest, d + 1, n =>
    scanParen rest (if c = '(' then d + 2 else if c = ')' then d else d + 1) (n + 1)

/-- First index of the substring `"//"` (Python `str.find("//")`,
`-1` mapped to `none`). -/
def findDoubleSlash : List Char → Option Nat
  | [] => none
  | ['/'] => none
  | '/' :: '/' :: _ => some 0
  | _ :: rest => (findDoubleSlash rest).map (· + 1)

/-- Python `str.rstrip()`. -/
def pyStripRight (cs : List Char) : List Char :=
  (cs.reverse.dropWhile pyIsSpace).reverse

/-- Join lines with `"\n"` (Python `"\n".join(...)`). -/
def joinNl : List (List Char) → List Char
  | [] => []
  | [l] => l
  | l :: rest => l ++ '\n' :: joinNl rest

/-- One line of `_normalize_go_body` (extractors.py lines 176-191):
the normalized form of the line, or `none` when the line is dropped. -/
def normalizeGoLine (line : List Char) : Option (List Char) :=
  let stripped := pyStrip line
  if stripped.isEmpty then none
  else if ['/', '/'].isPrefixOf stripped then none
  else
    let stripped :=
      match findDoubleSlash stripped with
      | some idx => if 0 < idx then pyStripRight (stripped.take idx) else stripped
      | none => stripped
    if ['f', 'm', 't', '.', 'P', 'r', 'i', 'n', 't'].isPrefixOf stripped
        || ['l', 'o', 'g', '.', 'P', 'r', 'i', 'n', 't'].isPrefixOf stripped
        || ['l', 'o', 'g', '.', 'F', 'a', 't', 'a', 'l'].isPrefixOf stripped
        || ['l', 'o', 'g', '.', 'P', 'a', 'n', 'i', 'c'].isPrefixOf stripped then none
    else if stripped.isEmpty then none
    else some stripped

/-- Embeds `_normalize_go_body` (extractors.py lines 170-192): drop blank lines,
comment-only lines, inline comment suffixes and logging lines. -/
def normalizeGoBody (body : List Char) : List Char :=
  joinNl ((pySplitlines body).filterMap normalizeGoLine)

/-- The `FunctionInfo` value object.  Modelled from the spec: the record
type lives in `desloppify/detectors/base.py`, which is not under `src/`;
§3 of the spec lists its attributes (name, start line, end line, line
count, parameter names, raw body, normalized body).  The owning-file
attribute and the md5 content hash are omitted: the embedding works on
file content directly and no claim touches the hash. -/
structure FunctionInfo where
  name : List Char
  line : Nat
  end_line : Nat
  loc : Nat
  body : List Char
  normalized : List Char
  params : List (List Char)
deriving DecidableEq

/-- Body of the per-match loop of `_extract_functions_regex`
(extractors.py lines 109-165), for the match starting at `startPos`. -/
def processFuncMatch (cs : List Char) (lines : List (List Char))
    (startPos : Nat) (m : FuncREMatch) : Option FunctionInfo :=
  let parenPos := startPos + m.consumed - 1
  match scanParen (cs.drop (parenPos + 1)) 1 (parenPos + 1) with
  | none => none
  | some i =>
    let paramText := (cs.drop (parenPos + 1)).take (i - 1 - (parenPos + 1))
    let params := extractParamsFromSig paramText
    match (cs.drop i).findIdx? (fun c => c = '{') with
    | none => none
    | some bp =>
      let absBrace := i + bp
      let braceLine := countNl (cs.take absBrace)
      let braceCol := ((cs.take absBrace).reverse.takeWhile (fun c => !(c = '\n'))).length
      match findMatchingBrace lines braceLine braceCol with
      | none => none
      | some endLine =>
        let funcStart := countNl (cs.take startPos)
        let funcEnd := endLine + 1
        let body := joinNl ((lines.drop funcStart).take (funcEnd - funcStart))
        some { name := m.name, line := funcStart + 1, end_line := funcEnd,
               loc := funcEnd - funcStart, body := body,
               normalized := normalizeGoBody body, params := params }

/-- Embeds `extract_go_functions` / `_extract_functions_regex` on file content
(extractors.py lines 89-91 and 99-167).  File reading is external; an
unreadable file yields `[]` before this function is reached. -/
def extractGoFunctions (content : String) : List FunctionInfo :=
  let cs := content.data
  let lines := pySplitlines cs
  (funcFinditer cs).filterMap (fun pm => processFuncMatch cs lines pm.1 pm.2)

/-! ### `detectors/deps.build_dep_graph`
(src/desloppify/lang/go/detectors/deps.py lines 81-146)

File discovery (`find_source_files`), `resolve_path` and the `os.path`
helpers live outside `src/`; following the spec they are modelled as:
discovery supplies the list of `.go` paths (absolute, resolved), each
paired with the import strings `_extract_imports` yields for its content
(a file whose read fails contributes no imports, deps.py lines 131-134);
`resolve_path` is the identity on such paths; `os.path.dirname` /
`os.path.relpath` are given their standard meaning for paths under the
scan root.  `finalize_graph` (desloppify/detectors/graph.py, not under
`src/`) is modelled from the spec: it attaches import/importer counts
equal to the cardinality of the edge sets. -/

/-- Embeds `os.path.dirname`: everything before the last `/`. -/
def dirName (p : List Char) : List Char :=
  ((p.reverse.dropWhile (fun c => !(c = '/'))).drop 1).reverse

/-- Modelled from the spec: `os.path.relpath(dir, root)` for a directory
at or under `root` — `"."` for the root itself, otherwise the path with
the `root/` prefix removed.  (Discovery only yields files under the
scanned path.) -/
def relPathUnder (root dir : List Char) : List Char :=
  if dir = root then ['.'] else dir.drop (root.length + 1)

/-- Package path of a file (deps.py lines 100-114): module path plus the
directory of the file relative to the scan root; without a module path
the bare relative directory.  (POSIX separators, so the `os.sep`
normalisation is the identity.) -/
def pkgPathOf (modulePath : Option String) (root p : String) : String :=
  let rd : String := ⟨relPathUnder root.data (dirName p.data)⟩
  match modulePath with
  | some m => if rd = "." then m else m ++ "/" ++ rd
  | none => rd

/-- The `pkg_to_files` reverse index (deps.py lines 96-118), built by
folding over the discovered files in order. -/
def pkgToFiles (modulePath : Option String) (root : String)
    (paths : List String) : String → List String :=
  paths.foldl
    (fun acc f => fun k =>
      if k = pkgPathOf modulePath root f then acc k ++ [f] else acc k)
    (fun _ => [])

/-- The dependency graph: the dict `{path: {"imports": set, "importers":
set}}` of deps.py, with the two edge sets as functions from paths. -/
structure DepGraph where
  nodes : List String
  imports : String → Finset String
  importers : String → Finset String

/-- Modelled from the spec: `finalize_graph` gives every node an
`import_count` equal to the cardinality of its outgoing edge set. -/
def importCount (g : DepGraph) (p : String) : Nat :=
  (g.imports p).card

/-- Modelled from the spec: `finalize_graph` gives every node an
`importer_count` equal to the cardinality of its incoming edge set. -/
def importerCount (g : DepGraph) (p : String) : Nat :=
  (g.importers p).card

/-- Record one resolved import edge in both directions (deps.py lines
143-144). -/
def addEdge (g : DepGraph) (src tgt : String) : DepGraph :=
  { g with
    imports := fun p => if p = src then insert tgt (g.imports p) else g.imports p,
    importers := fun p => if p = tgt then insert src (g.importers p) else g.importers p }

/-- The guarded edge insertion of deps.py lines 141-144: self-imports are
skipped. -/
def addEdgeStep (g : DepGraph) (e : String × String) : DepGraph :=
  if e.2 ≠ e.1 then addEdge g e.1 e.2 else g

/-- Embeds `_find_go_files` (deps.py lines 75-78): discovery output minus
`_test.go` files (vendor/testdata exclusion happens inside the external
`find_source_files`). -/
def findGoFiles (allGo : List (String × List String)) :
    List (String × List String) :=
  allGo.filter (fun f => !("_test.go".data.isSuffixOf f.1.data))

/-- Embeds `build_dep_graph` (deps.py lines 81-146) over the discovery output:
each element of `allGo` is a discovered `.go` path with the imports
extracted from its content. -/
def buildDepGraph (modulePath : Option String) (root : String)
    (allGo : List (String × List String)) : DepGraph :=
  let files := findGoFiles allGo
  let paths := files.map (·.1)
  let ptf := pkgToFiles modulePath root paths
  let g0 : DepGraph := ⟨paths, fun _ => ∅, fun _ => ∅⟩
  files.foldl
    (fun g f =>
      f.2.foldl
        (fun g imp =>
          (ptf imp).foldl (fun g tgt => addEdgeStep g (f.1, tgt)) g)
        g)
    g0

/-- The flattened list of candidate edges the nested loops of deps.py
lines 127-144 walk, in order. -/
def depEdgePairs (ptf : String → List String)
    (files : List (String × List String)) : List (String × String) :=
  files.flatMap (fun f => f.2.flatMap (fun imp => (ptf imp).map (fun t => (f.1, t))))

/-! ### `detectors/smells.detect_smells` — aggregation and ordering
(src/desloppify/lang/go/detectors/smells.py lines 9-75 and 296-361)

The per-file scanning loop accumulates, for each check id, the list of
match records (`{"file", "line", "content"}`).  The aggregation step
(lines 348-361) is embedded below over that accumulated map; the regex
patterns of the catalog are carried verbatim as inert data (the
aggregation only reads id/label/severity). -/

/-- One entry of the `SMELL_CHECKS` catalog (smells.py lines 9-10). -/
structure SmellCheck where
  id : String
  label : String
  pattern : Option String
  severity : String
deriving DecidableEq

/-- The `SMELL_CHECKS` catalog (smells.py lines 13-75), in order. -/
def SMELL_CHECKS : List SmellCheck := [
  ⟨"bare_error_return", "Bare error return without wrapping context",
    some "^\\s*return\\s+err\\s*$", "medium"⟩,
  ⟨"ignored_error", "Error assigned to _ (ignored)",
    some "_\\s*(?:,\\s*_\\s*)?=\\s*\\w+.*\\(", "high"⟩,
  ⟨"panic_in_lib", "panic() outside main/test files",
    some "(?<!\\w)panic\\s*\\(", "high"⟩,
  ⟨"empty_error_check", "if err != nil \x7b return err \x7d without context",
    none, "medium"⟩,
  ⟨"error_string_format",
    "Error string starts with capital letter or ends with punctuation",
    some "(?:errors\\.New|fmt\\.Errorf)\\s*\\(\\s*\"[A-Z]", "low"⟩,
  ⟨"nil_error_init", "var err error without immediate use",
    some "^\\s*var\\s+err\\s+error\\s*$", "low"⟩,
  ⟨"init_function", "func init() usage",
    some "^func\\s+init\\s*\\(\\s*\\)\\s*\\\x7b", "medium"⟩,
  ⟨"global_mutable", "Package-level var with mutable type (slice/map)",
    some "^var\\s+\\w+\\s*=?\\s*(?:map\\[|(?:\\[\\]))", "medium"⟩,
  ⟨"magic_number", "Magic numbers (>1000 in logic)",
    some "(?:==|!=|>=?|<=?|[+\\-*/])\\s*\\d\x7b4,\x7d", "low"⟩,
  ⟨"todo_fixme", "TODO/FIXME/HACK/XXX comments",
    some "//\\s*(?:TODO|FIXME|HACK|XXX)", "low"⟩,
  ⟨"hardcoded_url", "Hardcoded URL in source code",
    some "(?:[\"\x27])https?://[^\\s\"\x27]+(?:[\"\x27])", "medium"⟩,
  ⟨"empty_interface", "interface\x7b\x7d or any as parameter type",
    some "func\\s+\\w+\\([^)]*\\b(?:interface\\\x7b\\\x7d|\\bany\\b)", "low"⟩,
  ⟨"string_concat_loop", "String concatenation with += inside a for loop",
    none, "medium"⟩,
  ⟨"defer_in_loop", "defer inside a for/range loop",
    none, "high"⟩,
  ⟨"regex_in_loop", "regexp.Compile/MustCompile inside a for loop",
    none, "medium"⟩,
  ⟨"goroutine_leak", "go func() without WaitGroup or channel signal",
    some "go\\s+func\\s*\\(", "medium"⟩,
  ⟨"mutex_copy", "Passing sync.Mutex by value",
    some "func\\s+\\w+\\([^)]*\\bsync\\.Mutex\\b", "high"⟩,
  ⟨"unbuffered_channel", "make(chan ...) without buffer size",
    some "make\\(\\s*chan\\s+\\w+\\s*\\)", "low"⟩]

/-- One recorded match: `{"file": ..., "line": ..., "content": ...}`. -/
structure SmellMatch where
  file : String
  line : Nat
  content : String
deriving DecidableEq

/-- One aggregated output entry of `detect_smells` (smells.py lines
353-359). -/
structure SmellEntry where
  id : String
  label : String
  severity : String
  count : Nat
  files : Nat
  matchesList : List SmellMatch
deriving DecidableEq

/-- Embeds `severity_order.get(severity, 9)` (smells.py line 348). -/
def severityOrder (s : String) : Nat :=
  if s = "high" then 0 else if s = "medium" then 1 else if s = "low" then 2 else 9

/-- The sort key comparison of smells.py line 360: ascending
`(severity_order, -count)` — i.e. severity rank first, then descending
count. -/
def smellEntryLE (a b : SmellEntry) : Bool :=
  Nat.blt (severityOrder a.severity) (severityOrder b.severity) ||
    (severityOrder a.severity == severityOrder b.severity &&
      Nat.ble b.count a.count)

/-- The aggregation and ordering step of `detect_smells` (smells.py lines
348-361), over the per-check accumulated match lists: emit an entry for
each catalog check with at least one match, then stable-sort by severity
rank and descending count (Python's `list.sort` is stable, as is
`mergeSort`). -/
def detectSmellsEntries (counts : String → List SmellMatch) : List SmellEntry :=
  (SMELL_CHECKS.filterMap (fun ch =>
    let ms := counts ch.id
    if ms.isEmpty then none
    else some { id := ch.id, label := ch.label, severity := ch.severity,
                count := ms.length,
                files := ((ms.map (·.file)).dedup).length,
                matchesList := ms.take 50 })).mergeSort smellEntryLE

/-! ### shared hand-rolled regex pieces -/

/-- Match a literal, returning the remaining input. -/
def matchLit (lit cs : List Char) : Option (List Char) :=
  if lit.isPrefixOf cs then some (cs.drop lit.length) else none

/-- Regex `\s+`: at least one whitespace character (greedy; always
deterministic here because every following token starts with a
non-whitespace character). -/
def matchWs1 (cs : List Char) : Option (List Char) :=
  let ws := cs.takeWhile pyIsSpace
  if ws.isEmpty then none else some (cs.drop ws.length)

/-- Regex `\s*`. -/
def skipWs (cs : List Char) : List Char :=
  cs.dropWhile pyIsSpace

/-! ### `detectors/unused._detect_unused_regex`
(src/desloppify/lang/go/detectors/unused.py lines 105-154)

The fallback regex `^\s*(_\s*(?:,\s*_\s*)*)=\s*\w+` is hand-rolled: after
the leading `_` and optional `, _` groups the next token is `=` or `,`,
which are disjoint, so the starred group is deterministic. -/

/-- After the leading `_\s*`: accept `(?:,\s*_\s*)*=\s*\w+`. -/
def ignoredErrGroups : Nat → List Char → Bool
  | _, '=' :: rest => pyIsWord (((skipWs rest).headD ' '))
  | fuel + 1, ',' :: rest =>
    match skipWs rest with
    | '_' :: r2 => ignoredErrGroups fuel (skipWs r2)
    | _ => false
  | _, _ => false

/-- Embeds `ignored_err_re.match(stripped)` (unused.py line 114): does the
stripped line match `^\s*(_\s*(?:,\s*_\s*)*)=\s*\w+`? -/
def ignoredErrMatch (cs : List Char) : Bool :=
  match skipWs cs with
  | '_' :: r1 => ignoredErrGroups cs.length (skipWs r1)
  | _ => false

/-- Python `sub in s` (substring containment). -/
def containsSub (pat : List Char) : List Char → Bool
  | [] => pat.isPrefixOf []
  | c :: rest => pat.isPrefixOf (c :: rest) || containsSub pat rest

/-- The per-line decision of `_detect_unused_regex` (unused.py lines
133-152): skip blank, comment and `for `-prefixed lines; flag a
blank-assignment line unless it contains `:=` (a fresh short-form
declaration). -/
def unusedLineFlagged (line : List Char) : Bool :=
  let stripped := pyStrip line
  if stripped.isEmpty then false
  else if ['/', '/'].isPrefixOf stripped then false
  else if ['f', 'o', 'r', ' '].isPrefixOf stripped then false
  else ignoredErrMatch stripped && !(containsSub [':', '='] stripped)

/-- One entry of the regex fallback: line number (1-based), the `name`
field (`stripped[:60]`), and the category. -/
structure UnusedEntry where
  line : Nat
  name : List Char
  category : String
deriving DecidableEq

/-- Embeds `_detect_unused_regex` for one file's lines (unused.py lines
133-152): every flagged line yields an `ignored_error` entry. -/
def detectUnusedRegexFile (lines : List (List Char)) : List UnusedEntry :=
  lines.enum.filterMap (fun p =>
    if unusedLineFlagged p.2 then
      some ⟨p.1 + 1, (pyStrip p.2).take 60, "ignored_error"⟩
    else none)

/-! ### `detectors/smells._detect_empty_error_check` and
`fixers/error_wrap.fix_error_wrap`
(src/desloppify/lang/go/detectors/smells.py lines 177-215,
src/desloppify/lang/go/fixers/error_wrap.py lines 25-80,
src/desloppify/lang/go/fixers/common.py lines 103-119)

All regexes here chain literals through `\s+`/`\s*`, whose follow sets
are disjoint from whitespace, so the hand-rolled maximal-munch chains
below are exact. -/

/-- Tail of `if\s+err\s*!=\s*nil\s*\{` after the leading `if`:
`\s+err\s*!=\s*nil\s*\{`, returning the rest on success. -/
def matchErrNilOpenTail (cs : List Char) : Option (List Char) := do
  let r ← matchWs1 cs
  let r ← matchLit "err".data r
  let r ← matchLit "!=".data (skipWs r)
  let r ← matchLit "nil".data (skipWs r)
  let r ← matchLit "\x7b".data (skipWs r)
  pure r

/-- Anchored match of the single-line pattern
`if\s+err\s*!=\s*nil\s*\{\s*return\s+err\s*\}` at the start of the
input. -/
def matchEmptyCheckSingleAt (cs : List Char) : Bool :=
  (do
    let r ← matchLit "if".data cs
    let r ← matchErrNilOpenTail r
    let r ← matchLit "return".data (skipWs r)
    let r ← matchWs1 r
    let r ← matchLit "err".data r
    let _ ← matchLit "\x7d".data (skipWs r)
    pure ()).isSome

/-- Embeds `re.search` of the single-line pattern: try the anchored match at
every start position. -/
def searchEmptyCheckSingle : List Char → Bool
  | [] => false
  | cs@(_ :: rest) => matchEmptyCheckSingleAt cs || searchEmptyCheckSingle rest

/-- Embeds `re.match(r'if\s+err\s*!=\s*nil\s*\{', stripped)` (smells.py
line 201). -/
def matchIfErrOpenAt (cs : List Char) : Bool :=
  (do
    let r ← matchLit "if".data cs
    let _ ← matchErrNilOpenTail r
    pure ()).isSome

/-- Embeds `re.match(r'^(\s*)return\s+err\s*$', line)` (error_wrap.py line 25 and
smells.py line 206): on success, the captured indentation.  `$` accepts
the end of the line, a trailing-`\s*` run — including a final newline on
keepends lines — having been consumed. -/
def bareReturnIndent (cs : List Char) : Option (List Char) := do
  let ind := cs.takeWhile pyIsSpace
  let r ← matchLit "return".data (cs.drop ind.length)
  let r ← matchWs1 r
  let r ← matchLit "err".data r
  if (skipWs r).isEmpty then pure ind else none

/-- First nonblank line at or after index `j` (the `while ...: j += 1`
loops of smells.py lines 204-205 and 209-210); `lines.length` when none
remains. -/
def nextNonblank (lines : List (List Char)) : Nat → Nat → Nat
  | 0, j => j
  | fuel + 1, j =>
    if j < lines.length then
      if (pyStrip (lines.getD j [])).isEmpty then
        nextNonblank lines fuel (j + 1)
      else j
    else j

/-- Embeds `_detect_empty_error_check` (smells.py lines 177-215): the recorded
`(line, content)` pairs — the single-line form where it occurs anywhere
in the stripped line, else the three-line block form (if-line, bare
`return err` line, closing `}` line, blank lines allowed between). -/
def detectEmptyErrorCheck (lines : List (List Char)) : List (Nat × List Char) :=
  lines.enum.filterMap (fun p =>
    let i := p.1
    let stripped := pyStrip p.2
    if searchEmptyCheckSingle stripped then some (i + 1, stripped.take 100)
    else if matchIfErrOpenAt stripped then
      let j := nextNonblank lines lines.length (i + 1)
      if j < lines.length ∧ (bareReturnIndent (lines.getD j [])).isSome then
        let k := nextNonblank lines lines.length (j + 1)
        if k < lines.length ∧ pyStrip (lines.getD k []) = ['\x7d'] then
          some (i + 1, stripped.take 100)
        else none
      else none
    else none)

/-- Embeds `_FUNC_RE.match` of fixers/common.py line 103:
`^func\s+(?:\([^)]*\)\s+)?(\w+)\s*\(` — on success the function name.
(The receiver group here allows an empty `()`, unlike the extractor's.) -/
def matchFuncHeaderName (cs : List Char) : Option (List Char) :=
  let nameParen : List Char → Option (List Char) := fun r =>
    let w := r.takeWhile pyIsWord
    if w.isEmpty then none
    else
      match skipWs (r.drop w.length) with
      | '(' :: _ => some w
      | _ => none
  match cs with
  | 'f' :: 'u' :: 'n' :: 'c' :: rest =>
    match matchWs1 rest with
    | none => none
    | some r =>
      match r with
      | '(' :: r2 =>
        let rcv := r2.takeWhile (fun c => !(c = ')'))
        match r2.drop rcv.length with
        | ')' :: r3 =>
          match matchWs1 r3 with
          | none => none
          | some r4 => nameParen r4
        | _ => none
      | _ => nameParen r
  | _ => none

/-- Embeds `find_enclosing_func(lines, line_idx)` (common.py lines 106-119): scan
backward from `line_idx` for the nearest function header. -/
def findEnclosingFunc (lines : List (List Char)) (lineIdx : Nat) :
    Option (List Char) :=
  ((lines.take (lineIdx + 1)).reverse).findSome? matchFuncHeaderName

/-- Embeds `_SINGLE_LINE_CHECK_RE.match` (error_wrap.py lines 26-27): anchored at
the line start with the `(\s*)` indent captured; trailing content
allowed. -/
def singleCheckIndent (cs : List Char) : Option (List Char) := do
  let ind := cs.takeWhile pyIsSpace
  let r ← matchLit "if".data (cs.drop ind.length)
  let r ← matchErrNilOpenTail r
  let r ← matchLit "return".data (skipWs r)
  let r ← matchWs1 r
  let r ← matchLit "err".data r
  let _ ← matchLit "\x7d".data (skipWs r)
  pure ind

/-- Embeds `_MULTI_LINE_IF_RE.match` (error_wrap.py line 28):
`^\s*if\s+err\s*!=\s*nil\s*\{`. -/
def multiIfMatch (cs : List Char) : Bool :=
  (do
    let r ← matchLit "if".data (skipWs cs)
    let _ ← matchErrNilOpenTail r
    pure ()).isSome

/-- The `for j in range(i + 1, min(i + 5, len(lines)))` scan of
error_wrap.py lines 60-67: the first bare `return err` line in the
window, with its indent. -/
def findBareReturnIn (lines : List (List Char)) :
    Nat → Nat → Nat → Option (Nat × List Char)
  | 0, _, _ => none
  | fuel + 1, j, hi =>
    if j < hi then
      match bareReturnIndent (lines.getD j []) with
      | some ind => some (j, ind)
      | none => findBareReturnIn lines fuel (j + 1) hi
    else none

/-- The replacement text
`f'{indent}if err != nil {{ return fmt.Errorf("{func}: %w", err) }}\n'`
(error_wrap.py lines 52-53). -/
def wrappedSingleLine (ind funcName : List Char) : List Char :=
  ind ++ "if err != nil \x7b return fmt.Errorf(\"".data ++ funcName ++
    ": %w\", err) \x7d\n".data

/-- The replacement text
`f'{indent}return fmt.Errorf("{func}: %w", err)\n'`
(error_wrap.py lines 64 and 74). -/
def wrappedReturnLine (ind funcName : List Char) : List Char :=
  ind ++ "return fmt.Errorf(\"".data ++ funcName ++ ": %w\", err)\n".data

/-- The `_transform` loop of `fix_error_wrap` (error_wrap.py lines
33-78), on keepends lines.  `removed` entries are recorded by their
`line_num` (the Python code stores the string `f"error-wrap::{line_num}"`;
the numeric part carries all the information). -/
def fixErrorWrapGo (lines : List (List Char)) (entryLines : List Nat) :
    Nat → Nat → List Nat → List Nat → List (List Char) × List Nat
  | 0, _, _, removed => (lines, removed)
  | fuel + 1, i, fixedLines, removed =>
    if i ≥ lines.length then (lines, removed)
    else
      let lineNum := i + 1
      if ¬ entryLines.contains lineNum then
        fixErrorWrapGo lines entryLines fuel (i + 1) fixedLines removed
      else if fixedLines.contains i then
        fixErrorWrapGo lines entryLines fuel (i + 1) fixedLines removed
      else
        let funcName := (findEnclosingFunc lines i).getD "operation".data
        let cur := lines.getD i []
        match singleCheckIndent cur with
        | some ind =>
          fixErrorWrapGo (lines.set i (wrappedSingleLine ind funcName))
            entryLines fuel (i + 1) fixedLines (removed ++ [lineNum])
        | none =>
          if multiIfMatch cur then
            match findBareReturnIn lines lines.length (i + 1)
                (min (i + 5) lines.length) with
            | some (j, ind2) =>
              fixErrorWrapGo (lines.set j (wrappedReturnLine ind2 funcName))
                entryLines fuel (i + 1) (fixedLines ++ [j])
                (removed ++ [lineNum])
            | none =>
              fixErrorWrapGo lines entryLines fuel (i + 1) fixedLines removed
          else
            match bareReturnIndent cur with
            | some ind =>
              fixErrorWrapGo (lines.set i (wrappedReturnLine ind funcName))
                entryLines fuel (i + 1) fixedLines (removed ++ [lineNum])
            | none =>
              fixErrorWrapGo lines entryLines fuel (i + 1) fixedLines removed

/-- Embeds `fix_error_wrap`'s pure transform on one file: lines with line
endings, plus the 1-based line numbers of the detected entries. -/
def fixErrorWrapTransform (lines : List (List Char)) (entryLines : List Nat) :
    List (List Char) × List Nat :=
  fixErrorWrapGo lines entryLines (lines.length + 1) 0 [] []

/-! ### `mutex_copy` smell and `fixers/mutex_pointer`
(src/desloppify/lang/go/detectors/smells.py lines 69-71, 81-171, 296-346,
src/desloppify/lang/go/fixers/mutex_pointer.py lines 25-49)

The smell pattern `func\s+\w+\([^)]*\bsync\.Mutex\b` is hand-rolled: the
`[^)]*` region is scanned left to right for an occurrence of
`sync.Mutex` preceded by a non-word character (the `\b`) — existence of
any split of the greedy star is what the backtracking engine decides. -/

/-- The modelled file system. -/
def FS : Type := String → Option String

/-- Pointwise update of the file system. -/
def fsSet (fs : FS) (p : String) (v : Option String) : FS :=
  fun q => if q = p then v else fs q

/-- Embeds `p.with_suffix(p.suffix + ".tmp")` (common.py line 75): appending
`".tmp"` to the existing suffix makes the whole name `p ++ ".tmp"`. -/
def tmpName (p : String) : String :=
  p ++ ".tmp"

/-- Per-file failure oracle: which effect (if any) raises `OSError` while
this file is processed. -/
inductive FileEv where
  | readFail : FileEv
  | writeFail : FileEv
  | replaceFail : FileEv
  | ok : FileEv
deriving DecidableEq

/-- The guarded write of common.py lines 75-81: write the new content to
the temp sibling, rename it over the original; on any exception unlink
the temp file and re-raise.  Returns the file system and whether an
exception was (re-)raised.  `partialContent` is whatever prefix a failed
`write_text` managed to put in the temp file. -/
def writeTmpAndReplace (fs : FS) (p newContent partialContent : String)
    (ev : FileEv) : FS × Bool :=
  let tmp := tmpName p
  if ev = .writeFail then
    -- tmp.write_text raises midway; except: tmp.unlink; raise
    (fsSet (fsSet fs tmp (some partialContent)) tmp none, true)
  else if ev = .replaceFail then
    -- tmp fully written; os.replace raises atomically (p untouched);
    -- except: tmp.unlink; raise
    (fsSet (fsSet fs tmp (some newContent)) tmp none, true)
  else
    -- tmp written, then atomically renamed over p
    (fsSet (fsSet (fsSet fs tmp (some newContent)) p (some newContent)) tmp none,
      false)

/-- Result of processing one file. -/
structure FixStep where
  fs : FS
  recorded : Bool
  warned : Bool

/-- The per-file body of `apply_fixer` (common.py lines 58-84): read
(possibly failing), transform, record a result if the content changed,
write unless dry-run; a raised `OSError` is caught and reported as a
warning.  The result is recorded *before* the write (line 69), so it
stays recorded even when the write fails. -/
def processOneFile (transform : String → String) (dryRun : Bool) (fs : FS)
    (p : String) (ev : FileEv) (partialContent : String) : FixStep :=
  if ev = .readFail then ⟨fs, false, true⟩
  else
    match fs p with
    | none => ⟨fs, false, true⟩
    | some original =>
      let newC := transform original
      if newC = original then ⟨fs, false, false⟩
      else if dryRun then ⟨fs, true, false⟩
      else
        let wr := writeTmpAndReplace fs p newC partialContent ev
        ⟨wr.1, true, wr.2⟩

/-- Accumulated state of the `apply_fixer` loop. -/
structure FixRun where
  fs : FS
  results : List String
  warns : List String

/-- The file loop of `apply_fixer` (common.py lines 58-84): files are
processed in order; a per-file failure adds a warning and never aborts
the remaining files. -/
def applyFixerGo (transform : String → String) (dryRun : Bool)
    (ev : String → FileEv) (pc : String → String) :
    List String → FS → List String → List String → FixRun
  | [], fs, results, warns => ⟨fs, results, warns⟩
  | p :: rest, fs, results, warns =>
    let st := processOneFile transform dryRun fs p (ev p) (pc p)
    applyFixerGo transform dryRun ev pc rest st.fs
      (results ++ if st.recorded then [p] else [])
      (warns ++ if st.warned then [p] else [])

/-- Embeds `apply_fixer` over the grouped file list. -/
def applyFixer (transform : String → String) (dryRun : Bool)
    (files : List String) (ev : String → FileEv) (pc : String → String)
    (fs : FS) : FixRun :=
  applyFixerGo transform dryRun ev pc files fs [] []

/-! ## Theorems -/

/-! helper lemmas -/

theorem length_filterMap_of_isSome {α β : Type} (f : α → Option β) :
    ∀ (l : List α), (∀ a ∈ l, (f a).isSome) →
      (l.filterMap f).length = l.length := by
  intro l
  induction l with
  | nil => intro _; rfl
  | cons a t ih =>
    intro h
    have ha : (f a).isSome := h a (List.mem_cons_self a t)
    obtain ⟨b, hb⟩ := Option.isSome_iff_exists.mp ha
    simp [List.filterMap_cons, hb, ih (fun x hx => h x (List.mem_cons_of_mem a hx))]

theorem paramOfToken_isSome_of_names {t : List Char}
    (h : tokenNamesParam t = true) : (paramOfToken t).isSome := by
  unfold tokenNamesParam at h
  unfold paramOfToken
  by_cases he : (pyStrip t).isEmpty
  · rw [List.isEmpty_iff] at he
    rw [he] at h
    simp [pySplitWs, pySplitWsAux] at h
  · simp only [he, if_false]
    revert h
    cases hs : pySplitWs (pyStrip t) with
    | nil => intro h; exact absurd h (by simp)
    | cons name rest =>
      cases rest with
      | nil =>
        intro h
        have h' : ((name.headD 'A').isLower && pyIsIdentifier name) = true := h
        simpa using h'
      | cons b bs =>
        intro h
        have h' : pyIsIdentifier name = true := h
        simp [h']

/-! ### C1 -/

/-- Claim C1 (amended): for every signature text all of whose commas are
top-level (the code's every-comma split coincides with the top-level
split) and whose `N` top-level comma-separated parameter tokens each name
their parameter (several whitespace-separated words with an identifier
first word, or a single lowercase-initial identifier),
`_extract_params_from_sig` returns exactly one name per token, i.e. the
parameter list has length `N`.  Outside these conditions the length can
deviate in both directions, as the counterexample exhibits: an unnamed
bare-type token (e.g. a capitalized bare type) is dropped, and a comma
nested inside a parameter's type (a func-typed parameter) is split on,
inflating the count. -/
theorem extractParams_length_eq_of_named (sigText : List Char)
    (hflat : splitOnChar ',' sigText = topLevelSplit sigText)
    (h : ∀ tok ∈ topLevelSplit sigText, tokenNamesParam tok = true) :
    (extractParamsFromSig sigText).length = (topLevelSplit sigText).length := by
  rw [← hflat] at h ⊢
  unfold extractParamsFromSig
  exact length_filterMap_of_isSome paramOfToken _
    (fun tok htok => paramOfToken_isSome_of_names (h tok htok))

/-- Witness for `extractParams_length_eq_of_named`: the 3-parameter
signature `"ctx context.Context, a int, b string"` (all commas top-level)
yields 3 names. -/
theorem extractParams_length_witness :
    (splitOnChar ',' "ctx context.Context, a int, b string".data =
      topLevelSplit "ctx context.Context, a int, b string".data) ∧
    (∀ tok ∈ topLevelSplit "ctx context.Context, a int, b string".data,
      tokenNamesParam tok = true) ∧
    (extractParamsFromSig "ctx context.Context, a int, b string".data).length =
      (topLevelSplit "ctx context.Context, a int, b string".data).length :=
  ⟨by decide, by decide,
    extractParams_length_eq_of_named _ (by decide) (by decide)⟩

theorem braceScanSpec_line (cs : List Char) (t : List (Nat × Char))
    (i : Nat) :
    ∀ d : Int, braceScanSpec (cs.map (fun c => (i, c)) ++ t) d =
      match scanLineForClose cs d with
      | .found => some i
      | .depth d' => braceScanSpec t d' := by
  induction cs with
  | nil => intro d; rfl
  | cons c rest ih =>
    intro d
    simp only [List.map_cons, List.cons_append, braceScanSpec, scanLineForClose]
    by_cases h : c = '}' ∧ braceStep d c = 0
    · obtain ⟨hc, hd⟩ := h
      subst hc
      simp [hd]
    · simp only [if_neg h]
      exact ih (braceStep d c)

theorem braceScanSpec_lines (ls : List (List Char)) :
    ∀ (i : Nat) (d : Int),
      braceScanSpec (flattenLines ls i) d = findMatchingBraceAux ls i d := by
  induction ls with
  | nil => intro i d; rfl
  | cons l rest ih =>
    intro i d
    simp only [flattenLines, findMatchingBraceAux, braceScanSpec_line]
    cases scanLineForClose l d with
    | found => rfl
    | depth d' => exact ih (i + 1) d'

/-! ### C4 -/

/-- Claim C4 (amended): `_find_matching_brace` determines the end line by
plain brace-depth counting over *every* character from the opening
position — including braces inside string and raw-string literals, which
therefore do affect the reported end line (the claim's "ignoring braces
inside string literals" is refuted by `extract_end_line_counterexample`).
Formally the line-by-line loop equals the single left-to-right scan of
the flattened character stream with no string state. -/
theorem findMatchingBrace_counts_all_chars (lines : List (List Char))
    (s c : Nat) :
    findMatchingBrace lines s c = braceScanSpec (flattenFrom lines s c) 0 := by
  unfold findMatchingBrace flattenFrom
  cases lines.drop s with
  | nil => rfl
  | cons l rest =>
    simp only [braceScanSpec_line]
    cases scanLineForClose (l.drop c) 0 with
    | found => rfl
    | depth d' => exact (braceScanSpec_lines rest (s + 1) d').symm

/-- Claim C1 (counterexample): the claim fails in both directions.  The
declaration `func f(Reader) { }` has `N = 1` top-level comma-separated
parameter (the bare capitalized type token `"Reader"`), but
`extract_go_functions` returns a params list of length 0; and the
declaration `func f(g func(a, b int)) { }` also has `N = 1` top-level
parameter (the token `"g func(a, b int)"` names its parameter `g`), but
the code splits at the nested comma and returns a params list of
length 2. -/
theorem extract_params_counterexample :
    ((extractGoFunctions "func f(Reader) \x7b\n\x7d\n").map
        (fun f => f.params.length) = [0] ∧
      (topLevelSplit "Reader".data).length = 1) ∧
    ((extractGoFunctions "func f(g func(a, b int)) \x7b\n\x7d\n").map
        (fun f => f.params.length) = [2] ∧
      (topLevelSplit "g func(a, b int)".data).length = 1) ∧
    (0 : Nat) ≠ 1 ∧ (2 : Nat) ≠ 1 := by
  decide

/-- Claim C4 (counterexample): two function bodies identical except that one
string literal contains a `}`: with `s := "a"` the reported end line is 4,
with `s := "}"` it is 2 — the brace inside the string literal *does*
change the reported end line, refuting the claim that string-literal
braces are ignored. -/
theorem extract_end_line_counterexample :
    (extractGoFunctions "func f() \x7b\n\ts := \"a\"\n\tx := 1\n\x7d\n").map
        (fun f => f.end_line) = [4] ∧
    (extractGoFunctions "func f() \x7b\n\ts := \"\x7d\"\n\tx := 1\n\x7d\n").map
        (fun f => f.end_line) = [2] ∧
    (2 : Nat) ≠ 4 := by
  decide

/-! helper lemmas for the fold characterization -/

theorem inner_imports_fold_eq (ptf : String → List String) (s : String) :
    ∀ (imps : List String) (g : DepGraph),
      imps.foldl
        (fun g imp => (ptf imp).foldl (fun g tgt => addEdgeStep g (s, tgt)) g) g =
      (imps.flatMap (fun imp => (ptf imp).map (fun t => (s, t)))).foldl
        addEdgeStep g := by
  intro imps
  induction imps with
  | nil => intro g; rfl
  | cons imp rest ih =>
    intro g
    simp only [List.flatMap_cons, List.foldl_append, List.foldl_cons, ih,
      List.foldl_map]

theorem nested_eq_flat (ptf : String → List String) :
    ∀ (files : List (String × List String)) (g : DepGraph),
      files.foldl
        (fun g f =>
          f.2.foldl
            (fun g imp => (ptf imp).foldl (fun g tgt => addEdgeStep g (f.1, tgt)) g)
            g)
        g =
      (depEdgePairs ptf files).foldl addEdgeStep g := by
  intro files
  induction files with
  | nil => intro g; rfl
  | cons f rest ih =>
    intro g
    simp only [depEdgePairs, List.flatMap_cons, List.foldl_append,
      List.foldl_cons]
    rw [ih, inner_imports_fold_eq]
    rfl

theorem buildDepGraph_eq_pairs_fold (modulePath : Option String)
    (root : String) (allGo : List (String × List String)) :
    buildDepGraph modulePath root allGo =
      (depEdgePairs
          (pkgToFiles modulePath root ((findGoFiles allGo).map (·.1)))
          (findGoFiles allGo)).foldl addEdgeStep
        ⟨(findGoFiles allGo).map (·.1), fun _ => ∅, fun _ => ∅⟩ := by
  unfold buildDepGraph
  exact nested_eq_flat _ (findGoFiles allGo) _

theorem addEdgeStep_nodes (g : DepGraph) (e : String × String) :
    (addEdgeStep g e).nodes = g.nodes := by
  unfold addEdgeStep addEdge
  split <;> rfl

theorem foldl_addEdgeStep_nodes (pairs : List (String × String)) :
    ∀ g : DepGraph, (pairs.foldl addEdgeStep g).nodes = g.nodes := by
  induction pairs with
  | nil => intro g; rfl
  | cons e t ih => intro g; rw [List.foldl_cons, ih, addEdgeStep_nodes]

theorem mem_addEdgeStep_imports (g : DepGraph) (s u a t : String) :
    t ∈ (addEdgeStep g (s, u)).imports a ↔
      t ∈ g.imports a ∨ ((a, t) = (s, u) ∧ t ≠ a) := by
  unfold addEdgeStep addEdge
  by_cases hu : u ≠ s
  · rw [if_pos hu]
    dsimp only
    by_cases ha : a = s
    · subst ha
      rw [if_pos rfl]
      simp only [Finset.mem_insert, Prod.mk.injEq, true_and]
      constructor
      · rintro (rfl | h)
        · exact Or.inr ⟨rfl, hu⟩
        · exact Or.inl h
      · rintro (h | ⟨rfl, -⟩)
        · exact Or.inr h
        · exact Or.inl rfl
    · rw [if_neg ha]
      simp only [Prod.mk.injEq]
      constructor
      · exact Or.inl
      · rintro (h | ⟨⟨rfl, -⟩, -⟩)
        · exact h
        · exact absurd rfl ha
  · rw [if_neg hu]
    push_neg at hu
    simp only [Prod.mk.injEq]
    constructor
    · exact Or.inl
    · rintro (h | ⟨⟨rfl, rfl⟩, hta⟩)
      · exact h
      · exact absurd hu hta

theorem mem_addEdgeStep_importers (g : DepGraph) (s u x b : String) :
    x ∈ (addEdgeStep g (s, u)).importers b ↔
      x ∈ g.importers b ∨ ((x, b) = (s, u) ∧ b ≠ x) := by
  unfold addEdgeStep addEdge
  by_cases hu : u ≠ s
  · rw [if_pos hu]
    dsimp only
    by_cases hb : b = u
    · subst hb
      rw [if_pos rfl]
      simp only [Finset.mem_insert, Prod.mk.injEq, and_true]
      constructor
      · rintro (rfl | h)
        · exact Or.inr ⟨rfl, hu⟩
        · exact Or.inl h
      · rintro (h | ⟨rfl, -⟩)
        · exact Or.inr h
        · exact Or.inl rfl
    · rw [if_neg hb]
      simp only [Prod.mk.injEq]
      constructor
      · exact Or.inl
      · rintro (h | ⟨⟨-, rfl⟩, -⟩)
        · exact h
        · exact absurd rfl hb
  · rw [if_neg hu]
    push_neg at hu
    simp only [Prod.mk.injEq]
    constructor
    · exact Or.inl
    · rintro (h | ⟨⟨rfl, rfl⟩, hbx⟩)
      · exact h
      · exact absurd hu hbx

theorem foldl_addEdgeStep_imports (pairs : List (String × String)) :
    ∀ (g : DepGraph) (a t : String),
      t ∈ (pairs.foldl addEdgeStep g).imports a ↔
        t ∈ g.imports a ∨ ((a, t) ∈ pairs ∧ t ≠ a) := by
  induction pairs with
  | nil => intro g a t; simp
  | cons e rest ih =>
    intro g a t
    obtain ⟨s, u⟩ := e
    rw [List.foldl_cons, ih, mem_addEdgeStep_imports]
    constructor
    · rintro ((h | ⟨he, hta⟩) | ⟨hm, hta⟩)
      · exact Or.inl h
      · exact Or.inr ⟨List.mem_cons.mpr (Or.inl he), hta⟩
      · exact Or.inr ⟨List.mem_cons.mpr (Or.inr hm), hta⟩
    · rintro (h | ⟨hm, hta⟩)
      · exact Or.inl (Or.inl h)
      · rcases List.mem_cons.mp hm with he | hm'
        · exact Or.inl (Or.inr ⟨he, hta⟩)
        · exact Or.inr ⟨hm', hta⟩

theorem foldl_addEdgeStep_importers (pairs : List (String × String)) :
    ∀ (g : DepGraph) (x b : String),
      x ∈ (pairs.foldl addEdgeStep g).importers b ↔
        x ∈ g.importers b ∨ ((x, b) ∈ pairs ∧ b ≠ x) := by
  induction pairs with
  | nil => intro g x b; simp
  | cons e rest ih =>
    intro g x b
    obtain ⟨s, u⟩ := e
    rw [List.foldl_cons, ih, mem_addEdgeStep_importers]
    constructor
    · rintro ((h | ⟨he, hbx⟩) | ⟨hm, hbx⟩)
      · exact Or.inl h
      · exact Or.inr ⟨List.mem_cons.mpr (Or.inl he), hbx⟩
      · exact Or.inr ⟨List.mem_cons.mpr (Or.inr hm), hbx⟩
    · rintro (h | ⟨hm, hbx⟩)
      · exact Or.inl (Or.inl h)
      · rcases List.mem_cons.mp hm with he | hm'
        · exact Or.inl (Or.inr ⟨he, hbx⟩)
        · exact Or.inr ⟨hm', hbx⟩

theorem mem_depEdgePairs (ptf : String → List String)
    (files : List (String × List String)) (s t : String) :
    (s, t) ∈ depEdgePairs ptf files ↔
      ∃ f ∈ files, f.1 = s ∧ ∃ imp ∈ f.2, t ∈ ptf imp := by
  unfold depEdgePairs
  simp only [List.mem_flatMap, List.mem_map, Prod.mk.injEq]
  constructor
  · rintro ⟨f, hf, imp, himp, u, hu, rfl, rfl⟩
    exact ⟨f, hf, rfl, imp, himp, hu⟩
  · rintro ⟨f, hf, rfl, imp, himp, hu⟩
    exact ⟨f, hf, imp, himp, t, hu, rfl, rfl⟩

theorem pkgToFiles_foldl_eq (modulePath : Option String) (root : String) :
    ∀ (paths : List String) (init : String → List String) (k : String),
      (paths.foldl
        (fun acc f => fun k' =>
          if k' = pkgPathOf modulePath root f then acc k' ++ [f] else acc k')
        init) k =
      init k ++ (paths.filter (fun f => pkgPathOf modulePath root f = k)) := by
  intro paths
  induction paths with
  | nil => intro init k; simp
  | cons p rest ih =>
    intro init k
    rw [List.foldl_cons, ih]
    by_cases h : pkgPathOf modulePath root p = k
    · simp [List.filter_cons, h]
    · have h' : ¬ (k = pkgPathOf modulePath root p) := fun hk => h hk.symm
      simp [List.filter_cons, h, if_neg h']

/-- Embeds `pkg_to_files` maps a package identifier to exactly the discovered
files whose computed package path equals it, in discovery order. -/
theorem pkgToFiles_eq_filter (modulePath : Option String) (root : String)
    (paths : List String) (k : String) :
    pkgToFiles modulePath root paths k =
      paths.filter (fun f => pkgPathOf modulePath root f = k) := by
  unfold pkgToFiles
  rw [pkgToFiles_foldl_eq]
  rfl

/-! ### C2 -/

/-- Claim C2 (confirmed): for the graph built by `build_dep_graph`:
(1) the nodes are exactly the discovered non-test `.go` files;
(2) when a file imports an identifier that `pkg_to_files` maps to `K`
files, an edge is recorded from the importer to each of those files
except the importer itself, in both the outgoing set of the importer and
the incoming set of each target;
(3) every recorded outgoing edge arises that way (so imports matching no
known local package identifier add no edges, and no nodes beyond (1));
(4) the incoming sets record exactly the reversed outgoing edges; and
(5) the finalized import/importer counts are the cardinalities of the
edge sets. -/
theorem build_dep_graph_characterization (modulePath : Option String)
    (root : String) (allGo : List (String × List String)) :
    (buildDepGraph modulePath root allGo).nodes =
        (findGoFiles allGo).map (·.1) ∧
    (∀ f ∈ findGoFiles allGo, ∀ imp ∈ f.2,
      ∀ t ∈ pkgToFiles modulePath root ((findGoFiles allGo).map (·.1)) imp,
        t ≠ f.1 →
          t ∈ (buildDepGraph modulePath root allGo).imports f.1 ∧
          f.1 ∈ (buildDepGraph modulePath root allGo).importers t) ∧
    (∀ s t, t ∈ (buildDepGraph modulePath root allGo).imports s →
      ∃ f ∈ findGoFiles allGo, f.1 = s ∧ ∃ imp ∈ f.2,
        t ∈ pkgToFiles modulePath root ((findGoFiles allGo).map (·.1)) imp ∧
        t ≠ s) ∧
    (∀ s t, s ∈ (buildDepGraph modulePath root allGo).importers t ↔
      t ∈ (buildDepGraph modulePath root allGo).imports s) ∧
    (∀ p, importCount (buildDepGraph modulePath root allGo) p =
        ((buildDepGraph modulePath root allGo).imports p).card ∧
      importerCount (buildDepGraph modulePath root allGo) p =
        ((buildDepGraph modulePath root allGo).importers p).card) := by
  rw [buildDepGraph_eq_pairs_fold]
  set files := findGoFiles allGo with hfiles
  set ptf := pkgToFiles modulePath root (files.map (·.1)) with hptf
  set pairs := depEdgePairs ptf files with hpairs
  refine ⟨foldl_addEdgeStep_nodes pairs _, ?_, ?_, ?_, fun p => ⟨rfl, rfl⟩⟩
  · intro f hf imp himp t ht hne
    constructor
    · rw [foldl_addEdgeStep_imports]
      exact Or.inr ⟨(mem_depEdgePairs ptf files f.1 t).mpr
        ⟨f, hf, rfl, imp, himp, ht⟩, hne⟩
    · rw [foldl_addEdgeStep_importers]
      exact Or.inr ⟨(mem_depEdgePairs ptf files f.1 t).mpr
        ⟨f, hf, rfl, imp, himp, ht⟩, hne⟩
  · intro s t hmem
    rw [foldl_addEdgeStep_imports] at hmem
    rcases hmem with h | ⟨hp, hne⟩
    · exact absurd h (Finset.not_mem_empty t)
    · obtain ⟨f, hf, rfl, imp, himp, ht⟩ := (mem_depEdgePairs ptf files s t).mp hp
      exact ⟨f, hf, rfl, imp, himp, ht, hne⟩
  · intro s t
    rw [foldl_addEdgeStep_imports, foldl_addEdgeStep_importers]
    simp only [Finset.not_mem_empty, false_or]

/-! ### C3 -/

/-- Claim C3 (counterexample): without a `go.mod`, package identifiers
degrade to bare scan-root-relative directory paths (deps.py line 111), so
local imports can still resolve: scanning `/r` containing `a.go` (which
imports `"sub"`) and `sub/b.go` yields an edge from `a.go` to `b.go` —
the graph is *not* isolated-nodes-only, refuting the claim. -/
theorem dep_graph_no_module_counterexample :
    "/r/sub/b.go" ∈ (buildDepGraph none "/r"
        [("/r/a.go", ["sub"]), ("/r/sub/b.go", [])]).imports "/r/a.go" ∧
    (buildDepGraph none "/r"
        [("/r/a.go", ["sub"]), ("/r/sub/b.go", [])]).imports "/r/a.go" ≠ ∅ := by
  decide

/-- Claim C3 (amended): without a `go.mod`, `build_dep_graph` still returns
a graph normally (not an error), and the graph has no edges *provided* no
file's import string coincides with the bare relative-directory package
identifier of some discovered file — which is how module-path imports
(e.g. `"fmt"`, `"github.com/x/y"`) behave.  When an import string does
match a relative directory, edges are still created (see the
counterexample). -/
theorem build_dep_graph_no_module_isolated (root : String)
    (allGo : List (String × List String))
    (h : ∀ f ∈ findGoFiles allGo, ∀ imp ∈ f.2,
      ∀ p ∈ (findGoFiles allGo).map (·.1), imp ≠ pkgPathOf none root p) :
    ∀ q, (buildDepGraph none root allGo).imports q = ∅ ∧
      (buildDepGraph none root allGo).importers q = ∅ := by
  intro q
  rw [buildDepGraph_eq_pairs_fold]
  constructor
  · rw [Finset.eq_empty_iff_forall_not_mem]
    intro t hmem
    rw [foldl_addEdgeStep_imports] at hmem
    rcases hmem with hm | ⟨hp, -⟩
    · exact absurd hm (Finset.not_mem_empty t)
    · obtain ⟨f, hf, -, imp, himp, ht⟩ := (mem_depEdgePairs _ _ _ _).mp hp
      rw [pkgToFiles_eq_filter] at ht
      obtain ⟨htp, hpkg⟩ := List.mem_filter.mp ht
      exact absurd (of_decide_eq_true hpkg).symm (h f hf imp himp t htp)
  · rw [Finset.eq_empty_iff_forall_not_mem]
    intro x hmem
    rw [foldl_addEdgeStep_importers] at hmem
    rcases hmem with hm | ⟨hp, -⟩
    · exact absurd hm (Finset.not_mem_empty x)
    · obtain ⟨f, hf, -, imp, himp, ht⟩ := (mem_depEdgePairs _ _ _ _).mp hp
      rw [pkgToFiles_eq_filter] at ht
      obtain ⟨htp, hpkg⟩ := List.mem_filter.mp ht
      exact absurd (of_decide_eq_true hpkg).symm (h f hf imp himp q htp)

/-- Witness for `build_dep_graph_no_module_isolated`: a module-less scan
whose only import, `"fmt"`, matches no relative-directory identifier —
the resulting graph has empty edge sets. -/
theorem build_dep_graph_no_module_isolated_witness :
    (∀ f ∈ findGoFiles [("/r/a.go", ["fmt"])], ∀ imp ∈ f.2,
      ∀ p ∈ (findGoFiles [("/r/a.go", ["fmt"])]).map (·.1),
        imp ≠ pkgPathOf none "/r" p) ∧
    ∀ q, (buildDepGraph none "/r" [("/r/a.go", ["fmt"])]).imports q = ∅ ∧
      (buildDepGraph none "/r" [("/r/a.go", ["fmt"])]).importers q = ∅ :=
  ⟨by decide, build_dep_graph_no_module_isolated "/r" [("/r/a.go", ["fmt"])]
    (by decide)⟩

theorem smellEntryLE_trans (a b c : SmellEntry) :
    smellEntryLE a b = true → smellEntryLE b c = true →
      smellEntryLE a c = true := by
  unfold smellEntryLE
  simp only [Bool.or_eq_true, Bool.and_eq_true, Nat.blt_eq, Nat.ble_eq,
    beq_iff_eq]
  omega

theorem smellEntryLE_total (a b : SmellEntry) :
    (smellEntryLE a b || smellEntryLE b a) = true := by
  unfold smellEntryLE
  simp only [Bool.or_eq_true, Bool.and_eq_true, Nat.blt_eq, Nat.ble_eq,
    beq_iff_eq]
  omega

theorem smell_catalog_severities :
    ∀ ch ∈ SMELL_CHECKS,
      ch.severity = "high" ∨ ch.severity = "medium" ∨ ch.severity = "low" := by
  decide

theorem mem_detectSmellsEntries {counts : String → List SmellMatch}
    {e : SmellEntry} (he : e ∈ detectSmellsEntries counts) :
    ∃ ch ∈ SMELL_CHECKS, ¬(counts ch.id).isEmpty ∧
      e = { id := ch.id, label := ch.label, severity := ch.severity,
            count := (counts ch.id).length,
            files := (((counts ch.id).map (·.file)).dedup).length,
            matchesList := (counts ch.id).take 50 } := by
  unfold detectSmellsEntries at he
  rw [List.mem_mergeSort] at he
  obtain ⟨ch, hch, hsome⟩ := List.mem_filterMap.mp he
  dsimp only at hsome
  by_cases hms : (counts ch.id).isEmpty
  · rw [if_pos hms] at hsome
    exact absurd hsome (by simp)
  · rw [if_neg hms] at hsome
    exact ⟨ch, hch, hms, (Option.some.inj hsome).symm⟩

/-! ### C5 -/

/-- Claim C5 (confirmed): every entry `detect_smells` returns carries a
severity of high, medium or low, a count equal to the number of recorded
matches for that check, a `files` value equal to the number of distinct
matched files, and at most 50 sample matches; the entry list is sorted by
severity rank (high before medium before low) and, within equal severity,
by descending count. -/
theorem detect_smells_output_shape (counts : String → List SmellMatch) :
    (∀ e ∈ detectSmellsEntries counts,
      (e.severity = "high" ∨ e.severity = "medium" ∨ e.severity = "low") ∧
      e.count = (counts e.id).length ∧
      e.files = (((counts e.id).map (·.file)).dedup).length ∧
      e.matchesList = (counts e.id).take 50 ∧
      e.matchesList.length ≤ 50) ∧
    List.Pairwise
      (fun a b => severityOrder a.severity < severityOrder b.severity ∨
        (severityOrder a.severity = severityOrder b.severity ∧
          b.count ≤ a.count))
      (detectSmellsEntries counts) := by
  constructor
  · intro e he
    obtain ⟨ch, hch, -, rfl⟩ := mem_detectSmellsEntries he
    refine ⟨smell_catalog_severities ch hch, rfl, rfl, rfl, ?_⟩
    exact List.length_take_le 50 (counts ch.id)
  · have hs := List.sorted_mergeSort
      smellEntryLE_trans smellEntryLE_total
      (SMELL_CHECKS.filterMap (fun ch =>
        let ms := counts ch.id
        if ms.isEmpty then none
        else some { id := ch.id, label := ch.label, severity := ch.severity,
                    count := ms.length,
                    files := ((ms.map (·.file)).dedup).length,
                    matchesList := ms.take 50 }))
    refine List.Pairwise.imp ?_ hs
    intro a b hab
    revert hab
    unfold smellEntryLE
    simp only [Bool.or_eq_true, Bool.and_eq_true, Nat.blt_eq, Nat.ble_eq,
      beq_iff_eq]
    exact id

/-! ### C10 -/

/-- Claim C10 (confirmed): `detect_smells` emits an entry only for checks
that matched at least once: every returned entry has `count ≥ 1` and a
nonempty sample list, and a catalog check whose accumulated match list is
empty contributes no entry at all. -/
theorem detect_smells_omits_zero_matches (counts : String → List SmellMatch) :
    (∀ e ∈ detectSmellsEntries counts,
      1 ≤ e.count ∧ e.matchesList ≠ [] ∧ counts e.id ≠ []) ∧
    (∀ ch ∈ SMELL_CHECKS, counts ch.id = [] →
      ∀ e ∈ detectSmellsEntries counts, e.id ≠ ch.id) := by
  have key : ∀ e ∈ detectSmellsEntries counts,
      1 ≤ e.count ∧ e.matchesList ≠ [] ∧ counts e.id ≠ [] := by
    intro e he
    obtain ⟨ch, -, hne, rfl⟩ := mem_detectSmellsEntries he
    rw [List.isEmpty_iff] at hne
    refine ⟨?_, ?_, hne⟩
    · have : counts ch.id ≠ [] := hne
      cases hcs : counts ch.id with
      | nil => exact absurd hcs this
      | cons m ms => simp [hcs]
    · cases hcs : counts ch.id with
      | nil => exact absurd hcs hne
      | cons m ms => simp [hcs]
  refine ⟨key, ?_⟩
  intro ch _ hid e he heq
  exact (key e he).2.2 (heq ▸ hid)

/-! ### C9 -/

/-- Claim C9 (confirmed): under the regex fallback of `detect_unused`,
`_ = doSomething()` is flagged with category `ignored_error`, while
`x := doSomething()` (fresh short-form declaration) and
`for _ = range items` (a for-loop binding) are not flagged. -/
theorem unused_regex_scenario :
    detectUnusedRegexFile
        ["_ = doSomething()".data, "x := doSomething()".data,
          "for _ = range items".data] =
      [⟨1, "_ = doSomething()".data, "ignored_error"⟩] := by
  decide

/-! ### C6 -/

/-- Claim C6 (confirmed): on a function containing both the single-line form
`if err != nil { return err }` and the three-line block form, the
`empty_error_check` detector records both (lines 2 and 4), and
`fix_error_wrap` rewrites both so the returned error is wrapped via
`fmt.Errorf` with the enclosing function's name (`processOrder`) as the
context string.  (The entry list `[2, 4, 5]` is what `detect_bare_errors`
flattens for this file: the block's inner `return err` is also flagged as
`bare_error_return`; the fixer's `fixed_lines` bookkeeping skips it after
the block fix.) -/
theorem error_wrap_scenario :
    detectEmptyErrorCheck
        ["func processOrder(id string) error \x7b".data,
          "\tif err != nil \x7b return err \x7d".data,
          "\tresult, err := do()".data,
          "\tif err != nil \x7b".data,
          "\t\treturn err".data,
          "\t\x7d".data,
          "\treturn nil".data,
          "\x7d".data] =
      [(2, "if err != nil \x7b return err \x7d".data),
        (4, "if err != nil \x7b".data)] ∧
    fixErrorWrapTransform
        ["func processOrder(id string) error \x7b\n".data,
          "\tif err != nil \x7b return err \x7d\n".data,
          "\tresult, err := do()\n".data,
          "\tif err != nil \x7b\n".data,
          "\t\treturn err\n".data,
          "\t\x7d\n".data,
          "\treturn nil\n".data,
          "\x7d\n".data] [2, 4, 5] =
      (["func processOrder(id string) error \x7b\n".data,
          "\tif err != nil \x7b return fmt.Errorf(\"processOrder: %w\", err) \x7d\n".data,
          "\tresult, err := do()\n".data,
          "\tif err != nil \x7b\n".data,
          "\t\treturn fmt.Errorf(\"processOrder: %w\", err)\n".data,
          "\t\x7d\n".data,
          "\treturn nil\n".data,
          "\x7d\n".data], [2, 4]) := by
  decide

/-! ### C7 -/

theorem tmpName_ne_self (p : String) : tmpName p ≠ p := by
  intro h
  have hl := congrArg String.length h
  rw [tmpName, String.length_append] at hl
  have h4 : (".tmp" : String).length = 4 := rfl
  rw [h4] at hl
  omega

theorem tmpName_inj {p q : String} (h : tmpName p = tmpName q) : p = q := by
  have hd := congrArg String.data h
  rw [tmpName, tmpName, String.data_append, String.data_append] at hd
  have := (List.append_left_inj _).mp hd
  cases p with
  | mk dp =>
    cases q with
    | mk dq => exact congrArg String.mk this

theorem processOneFile_frame (transform : String → String) (dryRun : Bool)
    (fs : FS) (p : String) (ev : FileEv) (pc : String)
    (q : String) (hq1 : q ≠ p) (hq2 : q ≠ tmpName p) :
    (processOneFile transform dryRun fs p ev pc).fs q = fs q := by
  unfold processOneFile writeTmpAndReplace
  dsimp only
  split
  · rfl
  · split
    · rfl
    · split
      · rfl
      · split
        · rfl
        · split
          · simp [fsSet, hq1, hq2]
          · split
            · simp [fsSet, hq1, hq2]
            · simp [fsSet, hq1, hq2]

theorem processOneFile_self (transform : String → String) (dryRun : Bool)
    (fs : FS) (p : String) (ev : FileEv) (pc : String) :
    (processOneFile transform dryRun fs p ev pc).fs p = fs p ∨
    (processOneFile transform dryRun fs p ev pc).fs p = (fs p).map transform := by
  have htmp := tmpName_ne_self p
  unfold processOneFile writeTmpAndReplace
  dsimp only
  split
  · exact Or.inl rfl
  · split
    · exact Or.inl rfl
    · next o heq =>
      split
      · exact Or.inl rfl
      · split
        · exact Or.inl rfl
        · split
          · left
            simp [fsSet, Ne.symm htmp, htmp]
          · split
            · left
              simp [fsSet, Ne.symm htmp, htmp]
            · right
              simp [fsSet, Ne.symm htmp, htmp, heq]

theorem processOneFile_tmp (transform : String → String) (dryRun : Bool)
    (fs : FS) (p : String) (ev : FileEv) (pc : String)
    (h0 : fs (tmpName p) = none) :
    (processOneFile transform dryRun fs p ev pc).fs (tmpName p) = none := by
  unfold processOneFile writeTmpAndReplace
  dsimp only
  split
  · exact h0
  · split
    · exact h0
    · split
      · exact h0
      · split
        · exact h0
        · split
          · simp [fsSet]
          · split
            · simp [fsSet]
            · simp [fsSet]

theorem processOneFile_read_warn (transform : String → String)
    (dryRun : Bool) (fs : FS) (p : String) (pc : String) :
    (processOneFile transform dryRun fs p .readFail pc).warned = true := rfl

theorem processOneFile_write_fail (transform : String → String) (fs : FS)
    (p : String) (ev : FileEv) (pc : String) (o : String)
    (hev : ev = .writeFail ∨ ev = .replaceFail)
    (hfp : fs p = some o) (hch : transform o ≠ o) :
    (processOneFile transform false fs p ev pc).warned = true ∧
    (processOneFile transform false fs p ev pc).fs p = fs p := by
  have htmp := tmpName_ne_self p
  have hread : ev ≠ .readFail := by rcases hev with rfl | rfl <;> simp
  unfold processOneFile writeTmpAndReplace
  rw [if_neg hread, hfp]
  dsimp only
  rw [if_neg hch, if_neg (by simp : ¬ (false = true))]
  rcases hev with rfl | rfl
  · rw [if_pos rfl]
    exact ⟨rfl, by simp [fsSet, Ne.symm htmp, hfp]⟩
  · rw [if_neg (by simp), if_pos rfl]
    exact ⟨rfl, by simp [fsSet, Ne.symm htmp, hfp]⟩

theorem processOneFile_ok_writes (transform : String → String) (fs : FS)
    (p : String) (pc : String) (o : String)
    (hfp : fs p = some o) (hch : transform o ≠ o) :
    (processOneFile transform false fs p .ok pc).fs p = some (transform o) := by
  have htmp := tmpName_ne_self p
  unfold processOneFile writeTmpAndReplace
  rw [if_neg (by simp : (FileEv.ok : FileEv) ≠ .readFail), hfp]
  dsimp only
  rw [if_neg hch, if_neg (by simp : ¬ (false = true)),
    if_neg (by simp : (FileEv.ok : FileEv) ≠ .writeFail),
    if_neg (by simp : (FileEv.ok : FileEv) ≠ .replaceFail)]
  simp [fsSet, Ne.symm htmp]

theorem applyFixerGo_warns_mono (transform : String → String) (dryRun : Bool)
    (ev : String → FileEv) (pc : String → String) :
    ∀ (files : List String) (fs : FS) (res ws : List String) (x : String),
      x ∈ ws →
      x ∈ (applyFixerGo transform dryRun ev pc files fs res ws).warns := by
  intro files
  induction files with
  | nil => intro fs res ws x hx; exact hx
  | cons f rest ih =>
    intro fs res ws x hx
    exact ih _ _ _ x (List.mem_append.mpr (Or.inl hx))

theorem applyFixerGo_fs_frame (transform : String → String) (dryRun : Bool)
    (ev : String → FileEv) (pc : String → String) :
    ∀ (files : List String) (fs : FS) (res ws : List String) (x : String),
      (∀ q ∈ files, x ≠ q ∧ x ≠ tmpName q) →
      (applyFixerGo transform dryRun ev pc files fs res ws).fs x = fs x := by
  intro files
  induction files with
  | nil => intro fs res ws x _; rfl
  | cons f rest ih =>
    intro fs res ws x hx
    have hf := hx f (List.mem_cons_self f rest)
    rw [applyFixerGo]
    rw [ih _ _ _ x (fun q hq => hx q (List.mem_cons_of_mem f hq))]
    exact processOneFile_frame transform dryRun fs f (ev f) (pc f) x hf.1 hf.2

theorem applyFixerGo_spec (transform : String → String) (dryRun : Bool)
    (ev : String → FileEv) (pc : String → String) :
    ∀ (files : List String) (fs : FS) (res ws : List String),
      files.Nodup →
      (∀ p ∈ files, fs (tmpName p) = none) →
      (∀ p ∈ files, ∀ q ∈ files, tmpName p ≠ q) →
      ∀ p ∈ files,
        ((applyFixerGo transform dryRun ev pc files fs res ws).fs p = fs p ∨
          (applyFixerGo transform dryRun ev pc files fs res ws).fs p =
            (fs p).map transform) ∧
        (applyFixerGo transform dryRun ev pc files fs res ws).fs (tmpName p) =
          none ∧
        (ev p = .readFail →
          p ∈ (applyFixerGo transform dryRun ev pc files fs res ws).warns) ∧
        ((ev p = .writeFail ∨ ev p = .replaceFail) → dryRun = false →
          ∀ o, fs p = some o → transform o ≠ o →
            p ∈ (applyFixerGo transform dryRun ev pc files fs res ws).warns ∧
            (applyFixerGo transform dryRun ev pc files fs res ws).fs p = fs p) ∧
        (ev p = .ok → dryRun = false →
          ∀ o, fs p = some o → transform o ≠ o →
            (applyFixerGo transform dryRun ev pc files fs res ws).fs p =
              some (transform o)) := by
  intro files
  induction files with
  | nil => intro fs res ws _ _ _ p hp; exact absurd hp (List.not_mem_nil p)
  | cons f rest ih =>
    intro fs res ws hnd htmp0 htmpf p hp
    have hfrest : f ∉ rest := (List.nodup_cons.mp hnd).1
    have hndr : rest.Nodup := (List.nodup_cons.mp hnd).2
    rw [applyFixerGo]
    rcases List.mem_cons.mp hp with rfl | hpr
    · -- the head file itself
      have hframe1 : ∀ q ∈ rest, p ≠ q ∧ p ≠ tmpName q := by
        intro q hq
        refine ⟨fun h => hfrest (h ▸ hq), fun h => ?_⟩
        exact (htmpf q (List.mem_cons_of_mem p hq) p (List.mem_cons_self p rest))
          h.symm
      have hframe2 : ∀ q ∈ rest, tmpName p ≠ q ∧ tmpName p ≠ tmpName q := by
        intro q hq
        constructor
        · exact htmpf p (List.mem_cons_self p rest) q (List.mem_cons_of_mem p hq)
        · intro h
          have h' : p = q := tmpName_inj h
          subst h'
          exact hfrest hq
      have hfs : (applyFixerGo transform dryRun ev pc rest
          (processOneFile transform dryRun fs p (ev p) (pc p)).fs
          (res ++ if (processOneFile transform dryRun fs p (ev p) (pc p)).recorded
            then [p] else [])
          (ws ++ if (processOneFile transform dryRun fs p (ev p) (pc p)).warned
            then [p] else [])).fs p =
          (processOneFile transform dryRun fs p (ev p) (pc p)).fs p :=
        applyFixerGo_fs_frame transform dryRun ev pc rest _ _ _ p hframe1
      have hts : (applyFixerGo transform dryRun ev pc rest
          (processOneFile transform dryRun fs p (ev p) (pc p)).fs
          (res ++ if (processOneFile transform dryRun fs p (ev p) (pc p)).recorded
            then [p] else [])
          (ws ++ if (processOneFile transform dryRun fs p (ev p) (pc p)).warned
            then [p] else [])).fs (tmpName p) =
          (processOneFile transform dryRun fs p (ev p) (pc p)).fs (tmpName p) :=
        applyFixerGo_fs_frame transform dryRun ev pc rest _ _ _ (tmpName p) hframe2
      refine ⟨?_, ?_, ?_, ?_, ?_⟩
      · rw [hfs]
        exact processOneFile_self transform dryRun fs p (ev p) (pc p)
      · rw [hts]
        exact processOneFile_tmp transform dryRun fs p (ev p) (pc p)
          (htmp0 p (List.mem_cons_self p rest))
      · intro hev
        apply applyFixerGo_warns_mono
        have : (processOneFile transform dryRun fs p (ev p) (pc p)).warned =
            true := by
          rw [hev]; rfl
        rw [this]
        exact List.mem_append.mpr (Or.inr (List.mem_singleton.mpr rfl))
      · intro hev hdry o hfp hch
        subst hdry
        have hw := processOneFile_write_fail transform fs p (ev p) (pc p) o
          hev hfp hch
        constructor
        · apply applyFixerGo_warns_mono
          rw [hw.1]
          exact List.mem_append.mpr (Or.inr (List.mem_singleton.mpr rfl))
        · rw [hfs, hw.2]
      · intro hev hdry o hfp hch
        subst hdry
        rw [hfs, hev]
        exact processOneFile_ok_writes transform fs p (pc p) o hfp hch
    · -- a file of the tail: the head's processing does not touch it
      have hpne : p ≠ f := fun h => hfrest (h ▸ hpr)
      have hptm : p ≠ tmpName f :=
        fun h => (htmpf f (List.mem_cons_self f rest) p
          (List.mem_cons_of_mem f hpr)) h.symm
      have hstp : (processOneFile transform dryRun fs f (ev f) (pc f)).fs p =
          fs p :=
        processOneFile_frame transform dryRun fs f (ev f) (pc f) p hpne hptm
      have hsttm : (processOneFile transform dryRun fs f (ev f) (pc f)).fs
          (tmpName p) = fs (tmpName p) := by
        refine processOneFile_frame transform dryRun fs f (ev f) (pc f)
          (tmpName p) ?_ ?_
        · exact htmpf p (List.mem_cons_of_mem f hpr) f (List.mem_cons_self f rest)
        · intro h
          exact hfrest (tmpName_inj h ▸ hpr)
      have ihr := ih
        (processOneFile transform dryRun fs f (ev f) (pc f)).fs
        (res ++ if (processOneFile transform dryRun fs f (ev f) (pc f)).recorded
          then [f] else [])
        (ws ++ if (processOneFile transform dryRun fs f (ev f) (pc f)).warned
          then [f] else [])
        hndr
        (fun q hq => by
          rw [processOneFile_frame transform dryRun fs f (ev f) (pc f)
            (tmpName q)
            (htmpf q (List.mem_cons_of_mem f hq) f (List.mem_cons_self f rest))
            (fun h => hfrest (tmpName_inj h ▸ hq))]
          exact htmp0 q (List.mem_cons_of_mem f hq))
        (fun q hq r hr =>
          htmpf q (List.mem_cons_of_mem f hq) r (List.mem_cons_of_mem f hr))
        p hpr
      refine ⟨?_, ?_, ihr.2.2.1, ?_, ?_⟩
      · rcases ihr.1 with h | h
        · exact Or.inl (by rw [h, hstp])
        · exact Or.inr (by rw [h, hstp])
      · exact ihr.2.1
      · intro hev hdry o hfp hch
        have := ihr.2.2.2.1 hev hdry o (by rw [hstp, hfp]) hch
        exact ⟨this.1, by rw [this.2, hstp]⟩
      · intro hev hdry o hfp hch
        exact ihr.2.2.2.2 hev hdry o (by rw [hstp, hfp]) hch

/-! ### C8 -/

/-- Claim C8 (confirmed): for every run of `apply_fixer` (files distinct, no
file being another's temp sibling, temp names initially absent), and for
every file: the final content is either exactly the original or exactly
the transformed content — never the partial bytes of a failed write; the
file's temp sibling is absent afterwards (removed on both success and
failure); a read failure is reported as a warning; a write or rename
failure on a changed file is reported as a warning, leaves the original
content intact, and — because the conclusion holds for *every* file of
the list — does not abort the processing of the remaining files, whose
successful writes still land. -/
theorem apply_fixer_atomic (transform : String → String) (dryRun : Bool)
    (files : List String) (ev : String → FileEv) (pc : String → String)
    (fs : FS)
    (hnd : files.Nodup)
    (htmp0 : ∀ p ∈ files, fs (tmpName p) = none)
    (htmpf : ∀ p ∈ files, ∀ q ∈ files, tmpName p ≠ q) :
    ∀ p ∈ files,
      ((applyFixer transform dryRun files ev pc fs).fs p = fs p ∨
        (applyFixer transform dryRun files ev pc fs).fs p =
          (fs p).map transform) ∧
      (applyFixer transform dryRun files ev pc fs).fs (tmpName p) = none ∧
      (ev p = .readFail →
        p ∈ (applyFixer transform dryRun files ev pc fs).warns) ∧
      ((ev p = .writeFail ∨ ev p = .replaceFail) → dryRun = false →
        ∀ o, fs p = some o → transform o ≠ o →
          p ∈ (applyFixer transform dryRun files ev pc fs).warns ∧
          (applyFixer transform dryRun files ev pc fs).fs p = fs p) ∧
      (ev p = .ok → dryRun = false →
        ∀ o, fs p = some o → transform o ≠ o →
          (applyFixer transform dryRun files ev pc fs).fs p =
            some (transform o)) :=
  applyFixerGo_spec transform dryRun ev pc files fs [] [] hnd htmp0 htmpf

/-- Witness for `apply_fixer_atomic`: two files, the first's rename
failing, the second succeeding — the first keeps its original content and
is warned about, the second is rewritten, both temp files are gone. -/
theorem apply_fixer_atomic_witness :
    (([ "a.go", "b.go" ] : List String).Nodup ∧
      (∀ p ∈ ([ "a.go", "b.go" ] : List String),
        (fun q => if q = "a.go" then some "x" else
          if q = "b.go" then some "y" else none) (tmpName p) = none) ∧
      (∀ p ∈ ([ "a.go", "b.go" ] : List String),
        ∀ q ∈ ([ "a.go", "b.go" ] : List String), tmpName p ≠ q)) ∧
    (∀ p ∈ ([ "a.go", "b.go" ] : List String),
      ((applyFixer (fun s => s ++ "!") false [ "a.go", "b.go" ]
          (fun q => if q = "a.go" then .replaceFail else .ok)
          (fun _ => "PARTIAL")
          (fun q => if q = "a.go" then some "x" else
            if q = "b.go" then some "y" else none)).fs p =
        (fun q => if q = "a.go" then some "x" else
          if q = "b.go" then some "y" else none) p ∨
        (applyFixer (fun s => s ++ "!") false [ "a.go", "b.go" ]
          (fun q => if q = "a.go" then .replaceFail else .ok)
          (fun _ => "PARTIAL")
          (fun q => if q = "a.go" then some "x" else
            if q = "b.go" then some "y" else none)).fs p =
        ((fun q => if q = "a.go" then some "x" else
          if q = "b.go" then some "y" else none) p).map (fun s => s ++ "!")) ∧
      (applyFixer (fun s => s ++ "!") false [ "a.go", "b.go" ]
        (fun q => if q = "a.go" then .replaceFail else .ok)
        (fun _ => "PARTIAL")
        (fun q => if q = "a.go" then some "x" else
          if q = "b.go" then some "y" else none)).fs (tmpName p) = none ∧
      ((fun q => if q = "a.go" then FileEv.replaceFail else .ok) p =
          .readFail →
        p ∈ (applyFixer (fun s => s ++ "!") false [ "a.go", "b.go" ]
          (fun q => if q = "a.go" then .replaceFail else .ok)
          (fun _ => "PARTIAL")
          (fun q => if q = "a.go" then some "x" else
            if q = "b.go" then some "y" else none)).warns) ∧
      (((fun q => if q = "a.go" then FileEv.replaceFail else .ok) p =
            .writeFail ∨
          (fun q => if q = "a.go" then FileEv.replaceFail else .ok) p =
            .replaceFail) → false = false →
        ∀ o, (fun q => if q = "a.go" then some "x" else
            if q = "b.go" then some "y" else none) p = some o →
          (fun s => s ++ "!") o ≠ o →
            p ∈ (applyFixer (fun s => s ++ "!") false [ "a.go", "b.go" ]
              (fun q => if q = "a.go" then .replaceFail else .ok)
              (fun _ => "PARTIAL")
              (fun q => if q = "a.go" then some "x" else
                if q = "b.go" then some "y" else none)).warns ∧
            (applyFixer (fun s => s ++ "!") false [ "a.go", "b.go" ]
              (fun q => if q = "a.go" then .replaceFail else .ok)
              (fun _ => "PARTIAL")
              (fun q => if q = "a.go" then some "x" else
                if q = "b.go" then some "y" else none)).fs p =
            (fun q => if q = "a.go" then some "x" else
              if q = "b.go" then some "y" else none) p) ∧
      ((fun q => if q = "a.go" then FileEv.replaceFail else .ok) p = .ok →
        false = false →
        ∀ o, (fun q => if q = "a.go" then some "x" else
            if q = "b.go" then some "y" else none) p = some o →
          (fun s => s ++ "!") o ≠ o →
            (applyFixer (fun s => s ++ "!") false [ "a.go", "b.go" ]
              (fun q => if q = "a.go" then .replaceFail else .ok)
              (fun _ => "PARTIAL")
              (fun q => if q = "a.go" then some "x" else
                if q = "b.go" then some "y" else none)).fs p =
            some ((fun s => s ++ "!") o))) :=
  ⟨⟨by decide, by decide, by decide⟩,
    apply_fixer_atomic (fun s => s ++ "!") false [ "a.go", "b.go" ]
      (fun q => if q = "a.go" then .replaceFail else .ok)
      (fun _ => "PARTIAL")
      (fun q => if q = "a.go" then some "x" else
        if q = "b.go" then some "y" else none)
      (by decide) (by decide) (by decide)⟩

end Desloppify

